import Mathlib

/-!
Verification development for the gambit mutation-testing engine
(src/ast.rs, src/mutation.rs, src/run.rs, src/main.rs).

Modelling conventions, fixed once for the whole file:
  * Source text and candidate mutant texts are byte strings; they are modelled
    as `List Char` (all texts appearing in the claims are ASCII, where Rust's
    byte offsets and these character offsets coincide).
  * `serde_json::Value` is the inductive `Value` below.  Objects are key/value
    lists; serde_json's default map iterates keys in sorted order, and every
    concrete tree built in this file lists its keys sorted, so both orders
    agree.
  * Rust panics (`unwrap`, `expect`, `assert!`, out-of-range slicing) are
    modelled by `Option`/a dedicated `panic` outcome: `none` means the Rust
    program aborts at that point.
  * `usize` arithmetic uses release-profile semantics: `wrapping_add` /
    `wrapping_sub` and plain `+` all reduce modulo `2^64` (`USIZE`).
  * The Pcg64 random stream is modelled as an oracle `Nat → Nat` indexed by a
    draw counter: each primitive randomized choice (`SliceRandom::choose`, one
    Fisher-Yates swap of `SliceRandom::shuffle`, `RngCore::next_u64`) consumes
    one draw.  Distributional (uniformity) properties of rand_pcg are outside
    this embedding; which element can be selected, and in which order draws
    are consumed, is modelled exactly.
  * File-system glue (reading the original file, writing mutant files, the
    `diff` logging call) is out of scope per the specification; the original
    text is a parameter and a persisted mutant is modelled as the pair
    (attempt index, annotated text) — the attempt index is exactly the
    distinguishing component of the written file name.
-/

/-- JSON values as produced by the external parse service (serde_json::Value). -/
inductive Value where
  | null
  | bool (b : Bool)
  | num (n : Int)
  | str (s : String)
  | arr (elems : List Value)
  | obj (kvs : List (String × Value))

/-- Rust `Value::is_null`. -/
def Value.isNull : Value → Bool
  | .null => true
  | _ => false

/-- serde_json indexing `v[fnm]` with a string index: the value stored under
the key in an object, `Null` for a missing key or for a non-object value. -/
def Value.index (v : Value) (fnm : String) : Value :=
  match v with
  | .obj kvs => (kvs.lookup fnm).getD .null
  | _ => .null

/-- Rust `Value::as_str`. -/
def Value.asStr : Value → Option String
  | .str s => some s
  | _ => none

/-- Rust `Value::as_array`. -/
def Value.asArr : Value → Option (List Value)
  | .arr xs => some xs
  | _ => none

/-- Rust `str::split(sep)` on a character list (structural, so that concrete runs
reduce inside the kernel). -/
def splitOnChar (sep : Char) : List Char → List (List Char)
  | [] => [[]]
  | c :: rest =>
    let r := splitOnChar sep rest
    if c = sep then [] :: r
    else
      match r with
      | [] => [[c]]
      | h :: t => (c :: h) :: t

/-- The value of a decimal digit. -/
def digitVal (c : Char) : Option Nat :=
  if '0' ≤ c ∧ c ≤ '9' then some (c.toNat - '0'.toNat) else none

/-- Accumulating decimal parser. -/
def parseNatAux : List Char → Nat → Option Nat
  | [], acc => some acc
  | c :: cs, acc =>
    match digitVal c with
    | some d => parseNatAux cs (acc * 10 + d)
    | none => none

/-- Rust `str::parse::<usize>()` on plain decimal digits (`src` fields are always
plain decimals far below 2^64, so the sign/overflow edge cases of the Rust
parser cannot fire). -/
def parseNat : List Char → Option Nat
  | [] => none
  | l => parseNatAux l 0

-- A computable structural size for json values, used only to pick a
-- sufficient recursion fuel for the traversal (any bound on the tree depth
-- works; `valSize` dominates the depth because every level contributes at
-- least 1).
mutual
def valSize : Value → Nat
  | .null => 1
  | .bool _ => 1
  | .num _ => 1
  | .str _ => 1
  | .arr xs => 1 + valSizeL xs
  | .obj kvs => 1 + valSizeKV kvs
def valSizeL : List Value → Nat
  | [] => 0
  | x :: xs => valSize x + valSizeL xs
def valSizeKV : List (String × Value) → Nat
  | [] => 0
  | kv :: kvs => valSize kv.2 + valSizeKV kvs
end

/-- Rust `SolAST` (ast.rs): the underlying json element (possibly absent) and the
name of the innermost enclosing contract. -/
structure SolAST where
  element : Option Value
  contract : Option String

/-- Rust `SolAST::new`. -/
def SolAST.new (v : Value) (c : Option String) : SolAST :=
  if v.isNull then ⟨none, none⟩ else ⟨some v, c⟩

/-- Rust `SolAST::get_object`. -/
def SolAST.get_object (n : SolAST) : Option Value := n.element

/-- Rust `SolAST::get_contract`. -/
def SolAST.get_contract (n : SolAST) : Option String := n.contract

/-- Rust `SolAST::get_node`. -/
def SolAST.get_node (n : SolAST) (fnm : String) : SolAST :=
  match n.get_object with
  | none => ⟨none, n.get_contract⟩
  | some v => ⟨some (v.index fnm), n.get_contract⟩

/-- Rust `SolAST::get_string`. -/
def SolAST.get_string (n : SolAST) (fnm : String) : Option String :=
  match n.get_object with
  | some o => (o.index fnm).asStr
  | none => none

/-- Rust `SolAST::src`. -/
def SolAST.src (n : SolAST) : Option String := n.get_string "src"

/-- Rust `SolAST::name`. -/
def SolAST.name (n : SolAST) : Option String := n.get_string "name"

/-- Rust `SolAST::node_type`. -/
def SolAST.node_type (n : SolAST) : Option String := n.get_string "nodeType"

/-- Rust `SolAST::expression`. -/
def SolAST.expression (n : SolAST) : SolAST := n.get_node "expression"

/-- Rust `SolAST::operator`. -/
def SolAST.operator (n : SolAST) : Option String := n.get_string "operator"

/-- Rust `SolAST::left_expression`. -/
def SolAST.left_expression (n : SolAST) : SolAST := n.get_node "leftExpression"

/-- Rust `SolAST::right_expression`. -/
def SolAST.right_expression (n : SolAST) : SolAST := n.get_node "rightExpression"

/-- Rust `SolAST::left_hand_side`. -/
def SolAST.left_hand_side (n : SolAST) : SolAST := n.get_node "leftHandSide"

/-- Rust `SolAST::right_hand_side`. -/
def SolAST.right_hand_side (n : SolAST) : SolAST := n.get_node "rightHandSide"

/-- Rust `SolAST::condition`. -/
def SolAST.condition (n : SolAST) : SolAST := n.get_node "condition"

/-- Rust `SolAST::arguments`. -/
def SolAST.arguments (n : SolAST) : List SolAST :=
  match n.get_object with
  | none => []
  | some v =>
    match (v.index "arguments").asArr with
    | some lst => lst.map (fun e => SolAST.new e n.contract)
    | none => []

/-- Rust `SolAST::statements`. -/
def SolAST.statements (n : SolAST) : List SolAST :=
  match n.get_object with
  | none => []
  | some v =>
    match (v.index "statements").asArr with
    | some lst => lst.map (fun e => SolAST.new e n.contract)
    | none => []

/-- Rust `SolAST::get_bounds`: parse the `"start:length"` src field into a half-open
byte range.  `none` models the Rust panics (missing src, missing `:` part,
unparsable number). -/
def SolAST.get_bounds (n : SolAST) : Option (Nat × Nat) :=
  match n.src with
  | none => none
  | some s =>
    match splitOnChar ':' s.data with
    | p0 :: p1 :: _ =>
      match parseNat p0, parseNat p1 with
      | some a, some b => some (a, a + b)
      | _, _ => none
    | _ => none

/-- Rust `SolAST::get_text`: the slice `source[start..end]`; `none` models the
panics (missing bounds, out-of-range slice). -/
def SolAST.get_text (n : SolAST) (source : List Char) : Option (List Char) :=
  match n.get_bounds with
  | none => none
  | some (s, e) =>
    if s ≤ e ∧ e ≤ source.length then some ((source.drop s).take (e - s))
    else none

/-- Rust `SolAST::replace_part`: splice `new` into `[start, end)`.  Rust slices
`source[0..start]` and `source[end..len]`; `none` models the out-of-range
panics. -/
def SolAST.replace_part (_n : SolAST) (source : List Char) (new : List Char)
    (s e : Nat) : Option (List Char) :=
  if s ≤ source.length ∧ e ≤ source.length then
    some (source.take s ++ new ++ source.drop e)
  else none

/-- Rust `SolAST::replace_in_source`. -/
def SolAST.replace_in_source (n : SolAST) (source : List Char)
    (new : List Char) : Option (List Char) :=
  match n.get_bounds with
  | none => none
  | some (s, e) => n.replace_part source new s e

/-- The modulus of `usize` arithmetic. -/
def USIZE : Nat := 2 ^ 64

/-- Rust `Replacement` (ast.rs).  The Rust field `end` is called `stop` here
(`end` is a Lean keyword). -/
structure Replacement where
  start : Nat
  stop : Nat
  new : List Char
deriving DecidableEq

/-- The loop body of `SolAST::replace_multiple`: apply the sorted replacements
sequentially while tracking the running `curr_offset`.  `wrapping_add` /
`wrapping_sub` and the (release-profile) `+` reduce modulo `USIZE`; `none`
models the out-of-range slice panics. -/
def applyReps : List Replacement → Nat → List Char → Option (List Char)
  | [], _, cur => some cur
  | r :: rs, off, cur =>
    let aStart := (r.start + off) % USIZE
    let aStop := (r.stop + off) % USIZE
    if aStart ≤ cur.length ∧ aStop ≤ cur.length then
      let cur' := cur.take aStart ++ r.new ++ cur.drop aStop
      let newOff := (r.new.length + (USIZE - (r.stop - r.start) % USIZE)) % USIZE
      applyReps rs ((off + newOff) % USIZE) cur'
    else none

/-- Rust `SolAST::replace_multiple`: extract the bounds of every (node, replacement)
pair, sort by start offset ascending (itertools `sorted_by_key`, a stable
sort), then apply with a running offset. -/
def SolAST.replace_multiple (_n : SolAST) (source : List Char)
    (reps : List (SolAST × List Char)) : Option (List Char) :=
  match reps.mapM (fun p => (p.1.get_bounds).map (fun b => Replacement.mk b.1 b.2 p.2)) with
  | none => none
  | some rs => applyReps (List.insertionSort (fun a b => a.start ≤ b.start) rs) 0 source

/-- Rust `SolAST::comment_out`: wrap the node's span in `/*`...`*/`, extending the
end by one byte when the immediately following byte is `*`. -/
def SolAST.comment_out (n : SolAST) (source : List Char) : Option (List Char) :=
  match n.get_bounds with
  | none => none
  | some (s, e0) =>
    if e0 ≤ source.length then
      let e := if (source.drop e0).head? = some '*' then e0 + 1 else e0
      if s ≤ e ∧ e ≤ source.length then
        n.replace_part source ("/*".data ++ (source.drop s).take (e - s) ++ "*/".data) s e
      else none
    else none

/-- One recursive step of `SolAST::traverse_internal` (ast.rs).  The `fuel`
argument bounds the recursion depth; every descent moves to a structurally
smaller json element, so the `sizeOf` fuel supplied by `SolAST.traverse` is
never exhausted. -/
def travNode {T : Type} (visitor : SolAST → Option T) (skip accept : SolAST → Bool) :
    Nat → SolAST → Bool → List T
  | 0, _, _ => []
  | fuel+1, n, accepted =>
    let newAccepted := accepted || accept n
    if skip n then []
    else
      let here := if newAccepted then
        match visitor n with
        | some r => [r]
        | none => []
      else []
      let kids :=
        match n.element with
        | some (.obj kvs) =>
          let c := if (kvs.lookup "contractKind").isSome
                   then ((Value.obj kvs).index "name").asStr
                   else n.contract
          (kvs.map (fun kv => travNode visitor skip accept fuel (SolAST.new kv.2 c) newAccepted)).flatten
        | some (.arr xs) =>
          (xs.map (fun x => travNode visitor skip accept fuel (SolAST.new x n.contract) newAccepted)).flatten
        | _ => []
      here ++ kids

/-- Fuel sufficient to traverse a node: 1 for the node itself plus a bound on
the depth of its element. -/
def nodeFuel (n : SolAST) : Nat :=
  match n.element with
  | none => 1
  | some v => 1 + valSize v

/-- Rust `SolAST::traverse`. -/
def SolAST.traverse {T : Type} (n : SolAST) (visitor : SolAST → Option T)
    (skip accept : SolAST → Bool) : List T :=
  travNode visitor skip accept (nodeFuel n) n false

/-- Rust `<[T]>::swap(i, j)` on lists (identity when an index is out of range;
Fisher-Yates only uses in-range indices). -/
def listSwap {α : Type} (l : List α) (i j : Nat) : List α :=
  match l[i]?, l[j]? with
  | some a, some b => (l.set i b).set j a
  | _, _ => l

/-- The Fisher-Yates loop of `SliceRandom::shuffle`: for `i` from `len-1`
down to `1`, swap position `i` with a drawn position in `0..=i`.  Each swap
consumes one draw from the oracle stream. -/
def shuffleAux {α : Type} (stream : Nat → Nat) : List α → Nat → Nat → List α × Nat
  | l, 0, k => (l, k)
  | l, i+1, k => shuffleAux stream (listSwap l (i+1) (stream k % (i+2))) i (k+1)

/-- Rust `SliceRandom::shuffle` on a list, returning the shuffled list and the new
draw counter. -/
def shuffleList {α : Type} (l : List α) (stream : Nat → Nat) (k : Nat) : List α × Nat :=
  shuffleAux stream l (l.length - 1) k

/-- The closed catalog of mutation kinds (`MutationType` in mutation.rs). -/
inductive MutationType where
  | BinaryOpMutation
  | RequireMutation
  | AssignmentMutation
  | DeleteExpressionMutation
  | FunctionCallMutation
  | IfStatementMutation
  | SwapArgumentsFunctionMutation
  | SwapArgumentsOperatorMutation
  | SwapLinesMutation
  | UnaryOperatorMutation
  | ElimDelegateMutation
deriving DecidableEq

/-- Rust `MutationType::to_string`. -/
def MutationType.str : MutationType → String
  | .BinaryOpMutation => "BinaryOpMutation"
  | .RequireMutation => "RequireMutation"
  | .AssignmentMutation => "AssignmentMutation"
  | .DeleteExpressionMutation => "DeleteExpressionMutation"
  | .FunctionCallMutation => "FunctionCallMutation"
  | .IfStatementMutation => "IfStatementMutation"
  | .SwapArgumentsFunctionMutation => "SwapArgumentsFunctionMutation"
  | .SwapArgumentsOperatorMutation => "SwapArgumentsOperatorMutation"
  | .SwapLinesMutation => "SwapLinesMutation"
  | .UnaryOperatorMutation => "UnaryOperatorMutation"
  | .ElimDelegateMutation => "ElimDelegateMutation"

/-- The non-commutative operators of `SwapArgumentsOperatorMutation`. -/
def nonCommOps : List String := ["-", "/", "%", "**", ">", "<", ">=", "<=", "<<", ">>"]

/-- Rust `Mutation::is_mutation_point` for each kind (mutation.rs). -/
def MutationType.is_mutation_point : MutationType → SolAST → Bool
  | .BinaryOpMutation, node => node.node_type == some "BinaryOperation"
  | .RequireMutation, node =>
    node.node_type == some "FunctionCall" &&
    node.expression.name == some "require" &&
    !node.arguments.isEmpty
  | .AssignmentMutation, node => node.node_type == some "Assignment"
  | .DeleteExpressionMutation, node => node.node_type == some "ExpressionStatement"
  | .FunctionCallMutation, node =>
    node.node_type == some "FunctionCall" && !node.arguments.isEmpty
  | .IfStatementMutation, node => node.node_type == some "IfStatement"
  | .SwapArgumentsFunctionMutation, node =>
    node.node_type == some "FunctionCall" && decide (1 < node.arguments.length)
  | .SwapArgumentsOperatorMutation, node =>
    -- Rust panics when a BinaryOperation lacks `operator`; solc always emits
    -- one, so the unreachable panic is modelled as `false`.
    node.node_type == some "BinaryOperation" &&
    nonCommOps.contains (node.operator.getD "")
  | .SwapLinesMutation, node =>
    node.node_type == some "Block" && decide (1 < node.statements.length)
  | .UnaryOperatorMutation, node => node.node_type == some "UnaryOperation"
  | .ElimDelegateMutation, node =>
    node.node_type == some "FunctionCall" &&
    node.expression.node_type == some "MemberAccess" &&
    node.expression.get_string "memberName" == some "delegatecall"

/-- The binary operators drawn from by `BinaryOpMutation`. -/
def binOps : List String := ["+", "-", "*", "/", "%", "**"]

/-- The operators drawn from in the first branch of `UnaryOperatorMutation`
(Rust local `prefix_ops`). -/
def preOps : List String := ["++", "--", "~"]

/-- The operators drawn from in the second branch of `UnaryOperatorMutation`
(Rust local `suffix_ops`). -/
def sufOps : List String := ["++", "--"]

/-- Rust `Mutation::mutate_randomly` for each kind (mutation.rs).  Returns the
candidate text and the advanced draw counter; `none` models the panics
(failing `assert!`, missing bounds, out-of-range slices). -/
def MutationType.mutate_randomly (mt : MutationType) (node : SolAST)
    (source : List Char) (stream : Nat → Nat) (k : Nat) : Option (List Char × Nat) :=
  if !(mt.is_mutation_point node) then none
  else
    match mt with
    | .BinaryOpMutation =>
      match node.left_expression.get_bounds, node.right_expression.get_bounds with
      | some (_, endl), some (startr, _) =>
        let op := binOps.getD (stream k % binOps.length) ""
        (node.replace_part source (" ".data ++ op.data ++ " ".data) endl startr).map (·, k+1)
      | _, _ => none
    | .RequireMutation =>
      match node.arguments with
      | [] => none
      | arg :: _ =>
        match arg.get_text source with
        | none => none
        | some t => (arg.replace_in_source source ("!(".data ++ t ++ ")".data)).map (·, k)
    | .DeleteExpressionMutation => (node.comment_out source).map (·, k)
    | .FunctionCallMutation =>
      match node.arguments with
      | [] => (node.get_text source).map (·, k)
      | args =>
        let arg := args.getD (stream k % args.length) ⟨none, none⟩
        match arg.get_text source with
        | none => none
        | some t => (node.replace_in_source source t).map (·, k+1)
    | .IfStatementMutation =>
      let cond := node.condition
      let b1 := [true, false].getD (stream k % 2) true
      if b1 then
        let b2 := [true, false].getD (stream (k+1) % 2) true
        (cond.replace_in_source source (toString b2).data).map (·, k+2)
      else
        match cond.get_text source with
        | none => none
        | some t => (cond.replace_in_source source ("!(".data ++ t ++ ")".data)).map (·, k+1)
    | .SwapArgumentsFunctionMutation =>
      let sh := shuffleList node.arguments stream k
      if sh.1.length = 2 then
        let c0 := sh.1.getD 0 ⟨none, none⟩
        let c1 := sh.1.getD 1 ⟨none, none⟩
        match c1.get_text source, c0.get_text source with
        | some t1, some t0 => (node.replace_multiple source [(c0, t1), (c1, t0)]).map (·, sh.2)
        | _, _ => none
      else (node.get_text source).map (·, sh.2)
    | .SwapArgumentsOperatorMutation =>
      let left := node.left_expression
      let right := node.right_expression
      match right.get_text source, left.get_text source with
      | some tr, some tl => (node.replace_multiple source [(left, tr), (right, tl)]).map (·, k)
      | _, _ => none
    | .SwapLinesMutation =>
      let sh := shuffleList node.statements stream k
      if sh.1.length = 2 then
        let s0 := sh.1.getD 0 ⟨none, none⟩
        let s1 := sh.1.getD 1 ⟨none, none⟩
        match s1.get_text source, s0.get_text source with
        | some t1, some t0 => (node.replace_multiple source [(s0, t1), (s1, t0)]).map (·, sh.2)
        | _, _ => none
      else (node.get_text source).map (·, sh.2)
    | .UnaryOperatorMutation =>
      match node.get_bounds, node.operator with
      | some (s, e), some op =>
        match source.head?, op.data.head? with
        | some c0, some opc =>
          -- The Rust local closure compares source[0] — the first byte of the
          -- whole file — with the operator's first byte.
          if c0 = opc then
            let choice := preOps.getD (stream k % preOps.length) ""
            (node.replace_part source choice.data s (s + op.data.length)).map (·, k+1)
          else
            if op.data.length ≤ e then
              let choice := sufOps.getD (stream k % sufOps.length) ""
              (node.replace_part source choice.data (e - op.data.length) e).map (·, k+1)
            else none
        | _, _ => none
      | _, _ => none
    | .AssignmentMutation =>
      let r := stream k % USIZE
      let new := ["true", "false", "0", "1", Nat.repr r]
      let rhs := node.right_hand_side
      match rhs.element with
      | some _ =>
        let choice := new.getD (stream (k+1) % new.length) ""
        (rhs.replace_in_source source choice.data).map (·, k+2)
      | none => none
    | .ElimDelegateMutation =>
      match node.expression.expression.get_bounds, node.expression.get_bounds with
      | some (_, endl), some (_, endr) =>
        (node.replace_part source "call".data (endl + 1) endr).map (·, k)
      | _, _ => none

/-- Rust `RunMutations::is_assert_call` (run.rs). -/
def is_assert_call (node : SolAST) : Bool := node.name == some "assert"

/-- The visitor closure built by `RunMutations::mk_closures`: the (kind, node)
pairs of all allowed kinds applicable at the node, `none` when there are
none. -/
def visitorClosure (mutation_types : List MutationType) (node : SolAST) :
    Option (List (MutationType × SolAST)) :=
  let mapping := (mutation_types.filter (fun m => m.is_mutation_point node)).map (fun m => (m, node))
  if mapping.isEmpty then none else some mapping

/-- The accept closure built by `RunMutations::mk_closures`.  In the
function-allow-list cases Rust calls `node.name().unwrap()` after checking
`node_type == "FunctionDefinition"`; solc always emits a `name` on such
nodes, and that unreachable panic is modelled as `false`. -/
def acceptClosure (contract : Option String) (funcs_to_mutate : Option (List String))
    (node : SolAST) : Bool :=
  match contract, funcs_to_mutate with
  | none, none => true
  | some c, none => node.contract == some c
  | none, some f =>
    node.node_type == some "FunctionDefinition" &&
    (match node.name with
     | some nm => f.contains nm
     | none => false)
  | some c, some f =>
    node.contract == some c &&
    node.node_type == some "FunctionDefinition" &&
    (match node.name with
     | some nm => f.contains nm
     | none => false)

/-- Outcome of a mutation run.  `panic` is any Rust panic; `err` a propagated
`Box<dyn Error>` (the validity service failing to run); `ok` returns the
persisted mutants as (attempt index, annotated text) pairs — the attempt
index is the distinguishing component of the written file name — together
with the final value of the `attempts` counter; `fuelOut` never occurs for
the fuel supplied by `inner_loop` (each iteration either raises `attempts`
or shortens the queue) and is kept distinct so the model can never silently
truncate the loop. -/
inductive RunOutcome where
  | panic
  | err (msg : String)
  | ok (mutants : List (Int × List Char)) (attempts : Int)
  | fuelOut
deriving DecidableEq

/-- Rust `HashSet::insert` on the insertion-ordered seen set. -/
def insertSeen (c : List Char) (seen : List (List Char)) : List (List Char) :=
  if c ∈ seen then seen else c :: seen

/-- Whitespace as trimmed by `str::trim` (the texts in this development only
use these characters). -/
def isWs (c : Char) : Bool := c = ' ' || c = '\t' || c = '\n' || c = '\r'

/-- Rust `str::trim`. -/
def trimChars (l : List Char) : List Char :=
  ((l.dropWhile isWs).reverse.dropWhile isWs).reverse

/-- Modelled from the spec: `get_indent` lives in util.rs, which is not under
src/.  Per the provenance-annotation description the inserted comment carries
the indentation of the original line, so `get_indent` returns the line's
leading whitespace. -/
def get_indent (l : List Char) : List Char := l.takeWhile isWs

/-- The line scanner (`Scanner::next_line_raw`): the lines of a text without
their terminators; a trailing newline does not produce a final empty line. -/
def linesRaw (t : List Char) : List (List Char) :=
  if t = [] then []
  else
    let parts := splitOnChar '\n' t
    if parts.getLast? = some [] then parts.dropLast else parts

/-- Rust `RunMutations::add_mutant_comment` on the line lists of the original and
the mutant.  The first Rust loop walks both line sequences in lockstep,
re-appending `"\n"` to each line; at the first differing line it pushes the
provenance comment and `"\n" ++ line`, then the second loop appends the
remaining mutant lines.  The Rust loop reads a mutant line even in the
iteration in which the original runs out, so that one line is dropped. -/
def amcLines (mt : MutationType) : List (List Char) → List (List Char) → List Char
  | [], [] => []
  | [], _ :: t2 => (t2.map (· ++ ['\n'])).flatten
  | _ :: _, [] => []
  | l1 :: t1, l2 :: t2 =>
    let l1n := l1 ++ ['\n']
    let l2n := l2 ++ ['\n']
    if l1n = l2n then l2n ++ amcLines mt t1 t2
    else
      (get_indent l1n ++ "/// ".data ++ mt.str.data ++ " of: ".data ++ trimChars l1n)
      ++ ('\n' :: l2n)
      ++ (t2.map (· ++ ['\n'])).flatten

/-- Rust `RunMutations::add_mutant_comment` (run.rs).  Its only error source is
I/O on the original file, which is out of scope, so the model is total and
the `if let Ok(res)` in the loop always succeeds. -/
def add_mutant_comment (orig mutant : List Char) (mt : MutationType) : List Char :=
  amcLines mt (linesRaw orig) (linesRaw mutant)

/-- Rust `ATTEMPTS` (run.rs): tries per requested mutant. -/
def ATTEMPTS : Int := 50

/-- The while loop of `RunMutations::inner_loop`.  State: remaining queue,
the `attempts` counter, the draw counter, the seen set, and the persisted
mutants so far.  The successful branch writes the annotated text and then
inserts the reassigned `mutant` variable — that is, the annotated text, not
the generated candidate — into the seen set. -/
def innerLoopGo (stream : Nat → Nat) (isValid : List Char → Except String Bool)
    (groups : MutationType → Option (List SolAST)) (source : List Char) (total : Int) :
    Nat → List MutationType → Int → Nat → List (List Char) → List (Int × List Char) → RunOutcome
  | _, [], attempts, _, _, mutants => .ok mutants attempts
  | fuel, mt :: rest, attempts, k, seen, mutants =>
    if attempts < total then
      match fuel with
      | 0 => .fuelOut
      | fuel' + 1 =>
        match groups mt with
        | none => .panic
        | some [] =>
          -- `points.choose` on an empty vector: no draw, no attempt counted,
          -- and the popped kind is dropped.
          innerLoopGo stream isValid groups source total fuel' rest attempts k seen mutants
        | some ps =>
          let point := ps.getD (stream k % ps.length) ⟨none, none⟩
          match mt.mutate_randomly point source stream (k+1) with
          | none => .panic
          | some (cand, k') =>
            if cand ∈ seen then
              innerLoopGo stream isValid groups source total fuel' (rest ++ [mt])
                (attempts + 1) k' (insertSeen cand seen) mutants
            else
              match isValid cand with
              | .error e => .err e
              | .ok true =>
                let annotated := add_mutant_comment source cand mt
                innerLoopGo stream isValid groups source total fuel' rest
                  (attempts + 1) k' (insertSeen annotated seen)
                  (mutants ++ [(attempts, annotated)])
              | .ok false =>
                innerLoopGo stream isValid groups source total fuel' (rest ++ [mt])
                  (attempts + 1) k' (insertSeen cand seen) mutants
    else .ok mutants attempts

/-- Rust `RunMutations::inner_loop`: seed the seen set with the original text and
run the loop with `total_attempts = num_mutants * ATTEMPTS`.  After the loop,
in the exhaustion-logging branch, Rust evaluates
`num_mutants.try_into::<usize>()`, which panics for a negative quota.  The
original file's text stands in for the file read; the mutant directory and
the file writes are out-of-scope glue. -/
def inner_loop (source : List Char) (num_mutants : Int) (stream : Nat → Nat)
    (isValid : List Char → Except String Bool)
    (groups : MutationType → Option (List SolAST)) (queue : List MutationType) : RunOutcome :=
  let total := num_mutants * ATTEMPTS
  match innerLoopGo stream isValid groups source total (queue.length + total.toNat) queue 0 0 [source] [] with
  | .ok ms a => if a ≥ total ∧ num_mutants < 0 then .panic else .ok ms a
  | r => r

/-- The SCHEDULE loop of `RunMutations::get_mutations`: while `remaining > 0`,
append the first `min remaining len` kinds and decrement `remaining` by the
kind-list length.  Fuel `remaining.toNat` suffices whenever the kind list is
non-empty (each pass lowers `remaining` by at least 1); for an empty kind
list the Rust loop diverges while this model stops, but the caller only
reaches it with at least one discovered kind. -/
def buildQueueAux (kinds : List MutationType) : Nat → Int → List MutationType
  | 0, _ => []
  | fuel+1, remaining =>
    if 0 < remaining then
      let toTake := min remaining (kinds.length : Int)
      kinds.take toTake.toNat ++ buildQueueAux kinds fuel (remaining - kinds.length)
    else []

/-- The work queue built by the SCHEDULE step. -/
def buildQueue (kinds : List MutationType) (num_mutants : Int) : List MutationType :=
  buildQueueAux kinds num_mutants.toNat num_mutants

/-- The DISCOVER step of `RunMutations::get_mutations`: one traversal with
the three closures, flattened into (kind, node) pairs in discovery order. -/
def discoverMutations (node : SolAST) (mutation_types : List MutationType)
    (funcs_to_mutate : Option (List String)) (contract : Option String) :
    List (MutationType × SolAST) :=
  (node.traverse (visitorClosure mutation_types) is_assert_call
    (acceptClosure contract funcs_to_mutate)).flatten

/-- The per-kind point lists of `into_group_map`: values in insertion
(discovery) order; `none` for a kind that was never discovered
(`HashMap::get` returning `None`, which `inner_loop` turns into a panic). -/
def groupMap (mutations : List (MutationType × SolAST)) (mt : MutationType) :
    Option (List SolAST) :=
  let l := (mutations.filter (fun p => p.1 == mt)).map Prod.snd
  if l.isEmpty then none else some l

/-- The distinct discovered kinds in discovery order.  `into_group_map`
produces a std `HashMap`; the *iteration order* of its keys is unspecified
and randomized per process, so `get_mutations` below takes that order as the
explicit argument `keys`, constrained in the theorems to be a permutation of
these kinds. -/
def discoveredKinds (mutations : List (MutationType × SolAST)) : List MutationType :=
  (mutations.map Prod.fst).dedup

/-- Rust `RunMutations::get_mutations` (run.rs): discover, group, schedule, run
the inner loop.  `keys` is the iteration order of the grouping `HashMap`'s
keys (see `discoveredKinds`). -/
def get_mutations (keys : List MutationType) (node : SolAST)
    (mutation_types : List MutationType) (funcs_to_mutate : Option (List String))
    (contract : Option String) (num_mutants : Int) (stream : Nat → Nat)
    (source : List Char) (isValid : List Char → Except String Bool) : RunOutcome :=
  let mutations := discoverMutations node mutation_types funcs_to_mutate contract
  if mutations.isEmpty then .ok [] 0
  else
    inner_loop source num_mutants stream isValid (groupMap mutations) (buildQueue keys num_mutants)

/-- The intended meaning of multi-replace: the segment decomposition of the
source along a start-sorted, non-overlapping replacement list ("each
replacement lands at its original position shifted by the cumulative length
delta of the earlier replacements"). -/
def spliceFrom (source : List Char) : Nat → List Replacement → List Char
  | p, [] => source.drop p
  | p, r :: rs => (source.drop p).take (r.start - p) ++ r.new ++ spliceFrom source r.stop rs

/-- A start-sorted chain of valid, pairwise non-overlapping spans inside a
source of length `L`, starting at or after position `p`. -/
def ChainOK (L : Nat) : Nat → List Replacement → Prop
  | _, [] => True
  | p, r :: rs => p ≤ r.start ∧ r.start ≤ r.stop ∧ r.stop ≤ L ∧ ChainOK L r.stop rs

/-- A node whose accessors all behave as if the element were absent. -/
def absentLike (n : SolAST) : Prop :=
  (∀ f, n.get_string f = none) ∧ n.arguments = [] ∧ n.statements = []

-- Concrete fixtures. ---------------------------------------------------------

/-- Fixture source: an expression statement containing a binary operation. -/
def srcBin : List Char := "x=a-b;\n".data

/-- The json element of the BinaryOperation `a-b` of `srcBin` (operand `a` at
byte 2, operand `b` at byte 4). -/
def valBin : Value :=
  .obj [("leftExpression", .obj [("src", .str "2:1")]),
        ("nodeType", .str "BinaryOperation"),
        ("rightExpression", .obj [("src", .str "4:1")])]

/-- The json element of the ExpressionStatement `x=a-b;` of `srcBin`
(bytes [0,6)). -/
def valStmt : Value :=
  .obj [("nodeType", .str "ExpressionStatement"), ("src", .str "0:6")]

/-- The BinaryOperation node of `srcBin`. -/
def nodeBin : SolAST := ⟨some valBin, none⟩

/-- The ExpressionStatement node of `srcBin`. -/
def nodeStmt : SolAST := ⟨some valStmt, none⟩

/-- A parsed tree for `srcBin` holding the two nodes above; discovery visits
`valBin` before `valStmt`. -/
def treeBin : SolAST := ⟨some (.obj [("kids", .arr [valBin, valStmt])]), none⟩

/-- The annotated text of the `a-b ↦ a + b` mutant of `srcBin`. -/
def annBin : List Char := "/// BinaryOpMutation of: x=a-b;\nx=a + b;\n".data

/-- The annotated text of the comment-out mutant of `srcBin`. -/
def annDel : List Char := "/// DeleteExpressionMutation of: x=a-b;\n/*x=a-b;*/\n".data

/-- Fixture source: a two-statement block. -/
def srcBlk2 : List Char := "\x7b a(); b(); \x7d".data

/-- The Block node of `srcBlk2` (statements at bytes [2,6) and [7,11)). -/
def nodeBlk2 : SolAST :=
  ⟨some (.obj [("nodeType", .str "Block"), ("src", .str "0:13"),
               ("statements", .arr [.obj [("src", .str "2:4")], .obj [("src", .str "7:4")]])]),
   none⟩

/-- Rust `srcBlk2` with its two statements exchanged. -/
def srcBlk2Swapped : List Char := "\x7b b(); a(); \x7d".data

/-- Fixture source: a three-statement block that is a proper substring of the
file. -/
def srcBlk3 : List Char := "k; \x7b a(); b(); c(); \x7d".data

/-- The Block node of `srcBlk3` (bytes [3,21), statements at [5,9), [10,14),
[15,19)). -/
def nodeBlk3 : SolAST :=
  ⟨some (.obj [("nodeType", .str "Block"), ("src", .str "3:18"),
               ("statements", .arr [.obj [("src", .str "5:4")], .obj [("src", .str "10:4")],
                                    .obj [("src", .str "15:4")]])]),
   none⟩

/-- The original text of the block node of `srcBlk3` alone. -/
def blk3Text : List Char := "\x7b a(); b(); c(); \x7d".data

/-- Fixture source: a prefix increment. -/
def srcUn : List Char := "x = ++y;".data

/-- The UnaryOperation node `++y` of `srcUn` (bytes [4,7), operator `++`). -/
def nodeUn : SolAST :=
  ⟨some (.obj [("nodeType", .str "UnaryOperation"), ("operator", .str "++"),
               ("src", .str "4:3")]), none⟩

/-- Fixture for multi-replace: spans [1,2) and [4,6) of `"abcdef"`. -/
def srcSix : List Char := "abcdef".data

/-- Node spanning bytes [1,2) of `srcSix`. -/
def nodeSpan12 : SolAST := ⟨some (.obj [("src", .str "1:1")]), none⟩

/-- Node spanning bytes [4,6) of `srcSix`. -/
def nodeSpan46 : SolAST := ⟨some (.obj [("src", .str "4:2")]), none⟩

/-- A node whose element is a bare assert-call marker (`name == "assert"`). -/
def nodeAssert : SolAST := ⟨some (.obj [("name", .str "assert")]), none⟩

/-- The first statement node of `nodeBlk2`. -/
def stA : SolAST := ⟨some (.obj [("src", .str "2:4")]), none⟩

/-- The second statement node of `nodeBlk2`. -/
def stB : SolAST := ⟨some (.obj [("src", .str "7:4")]), none⟩

/-- The statement nodes of `nodeBlk3`. -/
def st3A : SolAST := ⟨some (.obj [("src", .str "5:4")]), none⟩

def st3B : SolAST := ⟨some (.obj [("src", .str "10:4")]), none⟩

def st3C : SolAST := ⟨some (.obj [("src", .str "15:4")]), none⟩

-- Theorems. ------------------------------------------------------------------

theorem travNode_skip_eq_nil {T : Type} (visitor : SolAST → Option T)
    (skip accept : SolAST → Bool) (fuel : Nat) (n : SolAST) (accepted : Bool)
    (h : skip n = true) :
    travNode visitor skip accept fuel n accepted = [] := by
  cases fuel with
  | zero => rfl
  | succ f => simp [travNode, h]

theorem travNode_results_not_skipped {T : Type} (visitor : SolAST → Option T)
    (skip accept : SolAST → Bool) :
    ∀ (fuel : Nat) (n : SolAST) (accepted : Bool),
      ∀ t ∈ travNode visitor skip accept fuel n accepted,
        ∃ m, skip m = false ∧ visitor m = some t := by
  intro fuel
  induction fuel with
  | zero =>
    intro n accepted t ht
    simp [travNode] at ht
  | succ f ih =>
    intro n accepted t ht
    by_cases hs : skip n = true
    · rw [travNode_skip_eq_nil _ _ _ _ _ _ hs] at ht
      simp at ht
    · rw [Bool.not_eq_true] at hs
      simp only [travNode, hs, Bool.false_eq_true, if_false, List.mem_append] at ht
      rcases ht with ht | ht
      · rcases hacc : (accepted || accept n) with _ | _
        · simp [hacc] at ht
        · rcases hvis : visitor n with _ | r
          · simp [hacc, hvis] at ht
          · simp only [hacc, hvis, if_true, List.mem_singleton] at ht
            exact ⟨n, hs, by rw [hvis, ht]⟩
      · rcases n with ⟨el, c⟩
        rcases el with _ | v
        · simp at ht
        · rcases v with _ | b | i | s | xs | kvs
          · simp at ht
          · simp at ht
          · simp at ht
          · simp at ht
          · simp only [List.mem_flatten, List.mem_map] at ht
            rcases ht with ⟨l, ⟨x, -, hl⟩, hmem⟩
            exact ih _ _ t (hl ▸ hmem)
          · simp only [List.mem_flatten, List.mem_map] at ht
            rcases ht with ⟨l, ⟨x, -, hl⟩, hmem⟩
            exact ih _ _ t (hl ▸ hmem)

/-- C4: for every tree and scope (any allowed-kind list, any contract /
function restriction), nothing inside an assertion-check call ever yields a
mutation point: a node satisfying the skip predicate `is_assert_call`
contributes nothing to the traversal — its whole subtree is pruned — and
every discovered (kind, node) pair sits at a node that is not an
assert call. -/
theorem c4_assert_subtree_pruned (mts : List MutationType)
    (contract : Option String) (funcs : Option (List String)) (t : SolAST) :
    (∀ (fuel : Nat) (accepted : Bool), is_assert_call t = true →
       travNode (visitorClosure mts) is_assert_call (acceptClosure contract funcs)
         fuel t accepted = [])
    ∧ (∀ p ∈ discoverMutations t mts funcs contract, is_assert_call p.2 = false) := by
  constructor
  · intro fuel accepted h
    exact travNode_skip_eq_nil _ _ _ _ _ _ h
  · intro p hp
    simp only [discoverMutations, SolAST.traverse, List.mem_flatten] at hp
    rcases hp with ⟨l, hl, hpl⟩
    rcases travNode_results_not_skipped _ _ _ _ _ _ l hl with ⟨m, hm, hvis⟩
    simp only [visitorClosure] at hvis
    by_cases hif : ((mts.filter (fun k => k.is_mutation_point m)).map (fun k => (k, m))).isEmpty
    · simp [hif] at hvis
    · simp only [hif, Bool.false_eq_true, if_false, Option.some.injEq] at hvis
      have hp2 : p ∈ (mts.filter (fun k => k.is_mutation_point m)).map (fun k => (k, m)) := by
        rw [hvis]; exact hpl
      simp only [List.mem_map] at hp2
      rcases hp2 with ⟨k, -, hk⟩
      have hsnd : p.2 = m := by rw [← hk]
      rw [hsnd]
      exact hm

/-- Witness for `c4_assert_subtree_pruned`: at the concrete assert-call node,
the traversal contributes nothing. -/
theorem c4_assert_subtree_pruned_witness :
    travNode (visitorClosure [MutationType.BinaryOpMutation]) is_assert_call
      (acceptClosure none none) 5 nodeAssert true = [] :=
  (c4_assert_subtree_pruned [MutationType.BinaryOpMutation] none none nodeAssert).1 5 true (by decide)

theorem absentLike_none (c : Option String) : absentLike ⟨none, c⟩ := by
  refine ⟨fun f => ?_, ?_, ?_⟩ <;>
    simp [SolAST.get_string, SolAST.get_object, SolAST.arguments, SolAST.statements]

theorem absentLike_null (c : Option String) : absentLike ⟨some .null, c⟩ := by
  refine ⟨fun f => ?_, ?_, ?_⟩ <;>
    simp [SolAST.get_string, SolAST.get_object, SolAST.arguments, SolAST.statements,
      Value.index, Value.asStr, Value.asArr]

/-- C10: the field accessors are total on absent/null elements and on missing
fields: `get_node` returns a node that itself behaves as absent (all its
string accessors return `none`, `arguments`/`statements` return `[]`, and its
element is again absent or json null), `get_string` returns `none`, and
`arguments`/`statements` return the empty list — no accessor panics (the
model needs no panic marker on any of these paths). -/
theorem c10_accessors_total (n : SolAST) (fnm : String) :
    (n.element = none ∨ n.element = some .null →
       absentLike n ∧ absentLike (n.get_node fnm) ∧
       ((n.get_node fnm).element = none ∨ (n.get_node fnm).element = some .null) ∧
       n.get_string fnm = none)
    ∧ (∀ kvs, n.element = some (.obj kvs) → kvs.lookup fnm = none →
         absentLike (n.get_node fnm) ∧ (n.get_node fnm).element = some .null ∧
         n.get_string fnm = none)
    ∧ (∀ kvs, n.element = some (.obj kvs) → kvs.lookup "arguments" = none →
         n.arguments = [])
    ∧ (∀ kvs, n.element = some (.obj kvs) → kvs.lookup "statements" = none →
         n.statements = []) := by
  rcases n with ⟨el, c⟩
  refine ⟨?_, ?_, ?_, ?_⟩
  · rintro (h | h) <;> simp only at h <;> subst h
    · exact ⟨absentLike_none c, by simp [SolAST.get_node, SolAST.get_object,
        SolAST.get_contract, absentLike_none], by simp [SolAST.get_node, SolAST.get_object],
        by simp [SolAST.get_string, SolAST.get_object]⟩
    · refine ⟨absentLike_null c, ?_, ?_, ?_⟩
      · have : (SolAST.get_node ⟨some .null, c⟩ fnm) = ⟨some .null, c⟩ := by
          simp [SolAST.get_node, SolAST.get_object, SolAST.get_contract, Value.index]
        rw [this]; exact absentLike_null c
      · right
        simp [SolAST.get_node, SolAST.get_object, Value.index]
      · simp [SolAST.get_string, SolAST.get_object, Value.index, Value.asStr]
  · intro kvs h hl
    simp only at h; subst h
    have hidx : (Value.obj kvs).index fnm = .null := by simp [Value.index, hl]
    have : (SolAST.get_node ⟨some (.obj kvs), c⟩ fnm) = ⟨some .null, c⟩ := by
      simp [SolAST.get_node, SolAST.get_object, SolAST.get_contract, hidx]
    refine ⟨this ▸ absentLike_null c, by rw [this], ?_⟩
    simp [SolAST.get_string, SolAST.get_object, hidx, Value.asStr]
  · intro kvs h hl
    simp only at h; subst h
    have hidx : (Value.obj kvs).index "arguments" = .null := by simp [Value.index, hl]
    simp [SolAST.arguments, SolAST.get_object, hidx, Value.asArr]
  · intro kvs h hl
    simp only at h; subst h
    have hidx : (Value.obj kvs).index "statements" = .null := by simp [Value.index, hl]
    simp [SolAST.statements, SolAST.get_object, hidx, Value.asArr]

/-- Witness for `c10_accessors_total`: concrete absent node and a concrete
object missing the requested fields. -/
theorem c10_accessors_total_witness :
    absentLike (SolAST.get_node ⟨none, none⟩ "condition")
    ∧ SolAST.get_string ⟨some (.obj [("src", .str "0:1")]), none⟩ "operator" = none
    ∧ SolAST.arguments ⟨some (.obj [("src", .str "0:1")]), none⟩ = []
    ∧ SolAST.statements ⟨some (.obj [("src", .str "0:1")]), none⟩ = [] :=
  ⟨((c10_accessors_total ⟨none, none⟩ "condition").1 (Or.inl rfl)).2.1,
   ((c10_accessors_total ⟨some (.obj [("src", .str "0:1")]), none⟩ "operator").2.1
      [("src", .str "0:1")] rfl rfl).2.2,
   (c10_accessors_total ⟨some (.obj [("src", .str "0:1")]), none⟩ "operator").2.2.1
      [("src", .str "0:1")] rfl rfl,
   (c10_accessors_total ⟨some (.obj [("src", .str "0:1")]), none⟩ "operator").2.2.2
      [("src", .str "0:1")] rfl rfl⟩

/-- C6 (code bug): on `x = ++y;` the span of the UnaryOperation `++y` starts
with the operator's first byte `+` (third conjunct is the span's first byte),
so the claimed rule would take the prefix branch and rewrite the leading
operator (yielding e.g. `x = --y;`); the code instead compares the first byte
of the whole file (`x`) with `+`, takes the postfix branch and rewrites the
last two bytes of the span, producing `x = +--;`. -/
theorem c6_unary_uses_file_first_byte :
    MutationType.UnaryOperatorMutation.mutate_randomly nodeUn srcUn (fun _ => 1) 0
      = some ("x = +--;".data, 1)
    ∧ srcUn.getD 4 ' ' = '+'
    ∧ "x = +--;".data ≠ "x = --y;".data := by
  refine ⟨by decide, by decide, by decide⟩

/-- C1 (code bug): with a fixed tree, source, quota (1), seed (oracle
stream), kinds and scope, the mutant list still depends on the iteration
order of the grouping `HashMap`'s keys — which the standard library
randomizes per process.  Both orders below are permutations of the
discovered kind set, i.e. both are orders a real execution can observe, and
they persist different mutants. -/
theorem c1_run_order_dependent :
    List.Perm [MutationType.BinaryOpMutation, MutationType.DeleteExpressionMutation]
      (discoveredKinds (discoverMutations treeBin
        [MutationType.BinaryOpMutation, MutationType.DeleteExpressionMutation] none none))
    ∧ List.Perm [MutationType.DeleteExpressionMutation, MutationType.BinaryOpMutation]
      (discoveredKinds (discoverMutations treeBin
        [MutationType.BinaryOpMutation, MutationType.DeleteExpressionMutation] none none))
    ∧ get_mutations [MutationType.BinaryOpMutation, MutationType.DeleteExpressionMutation]
        treeBin [MutationType.BinaryOpMutation, MutationType.DeleteExpressionMutation]
        none none 1 (fun _ => 0) srcBin (fun _ => .ok true) = .ok [(0, annBin)] 1
    ∧ get_mutations [MutationType.DeleteExpressionMutation, MutationType.BinaryOpMutation]
        treeBin [MutationType.BinaryOpMutation, MutationType.DeleteExpressionMutation]
        none none 1 (fun _ => 0) srcBin (fun _ => .ok true) = .ok [(0, annDel)] 1
    ∧ annBin ≠ annDel := by
  refine ⟨by decide, by decide, by decide, by decide, by decide⟩

/-- C2 (code bug): a full deterministic run (quota 2, one discovered kind,
always-valid service) returns two mutants whose texts are byte-identical.
The cause: after validation the loop inserts the reassigned `mutant`
variable — the annotated text — into the seen set, so the raw generated
candidate is never recorded and is accepted again at the next attempt. -/
theorem c2_duplicate_mutants_run :
    get_mutations [MutationType.BinaryOpMutation] treeBin [MutationType.BinaryOpMutation]
      none none 2 (fun _ => 0) srcBin (fun _ => .ok true)
      = .ok [(0, annBin), (1, annBin)] 2 := by
  decide

/-- C5 (counterexample): discovery on `treeBin` yields the kinds
`[BinaryOp, DeleteExpression]` in that (discovery) order, but the queue is
built from the grouping `HashMap`'s key iteration order: the permutation
`[DeleteExpression, BinaryOp]` is an order a real execution can observe, and
for quota 5 it builds the queue `[D,B,D,B,D]`, not the claimed
discovery-order queue `[B,D,B,D,B]`. -/
theorem c5_hash_order_counterexample :
    discoveredKinds (discoverMutations treeBin
        [MutationType.BinaryOpMutation, MutationType.DeleteExpressionMutation] none none)
      = [MutationType.BinaryOpMutation, MutationType.DeleteExpressionMutation]
    ∧ List.Perm [MutationType.DeleteExpressionMutation, MutationType.BinaryOpMutation]
        (discoveredKinds (discoverMutations treeBin
          [MutationType.BinaryOpMutation, MutationType.DeleteExpressionMutation] none none))
    ∧ buildQueue [MutationType.DeleteExpressionMutation, MutationType.BinaryOpMutation] 5
        = [MutationType.DeleteExpressionMutation, MutationType.BinaryOpMutation,
           MutationType.DeleteExpressionMutation, MutationType.BinaryOpMutation,
           MutationType.DeleteExpressionMutation]
    ∧ buildQueue [MutationType.DeleteExpressionMutation, MutationType.BinaryOpMutation] 5
        ≠ [MutationType.BinaryOpMutation, MutationType.DeleteExpressionMutation,
           MutationType.BinaryOpMutation, MutationType.DeleteExpressionMutation,
           MutationType.BinaryOpMutation] := by
  refine ⟨by decide, by decide, by decide, by decide⟩

/-- C7 (counterexample): SwapLines on a three-statement block that is a
proper substring of the file returns the block's own text, which is not
byte-identical to the original program text. -/
theorem c7_noop_returns_block_text :
    MutationType.SwapLinesMutation.mutate_randomly nodeBlk3 srcBlk3 (fun _ => 0) 0
      = some (blk3Text, 2)
    ∧ blk3Text ≠ srcBlk3 := by
  refine ⟨by decide, by decide⟩

theorem innerLoopGo_attempts_le (stream : Nat → Nat) (isValid : List Char → Except String Bool)
    (groups : MutationType → Option (List SolAST)) (source : List Char) (total : Int) :
    ∀ (fuel : Nat) (queue : List MutationType) (attempts : Int) (k : Nat)
      (seen : List (List Char)) (mutants : List (Int × List Char)) (ms : List (Int × List Char)) (a : Int),
      attempts ≤ total →
      innerLoopGo stream isValid groups source total fuel queue attempts k seen mutants
        = .ok ms a → a ≤ total := by
  intro fuel
  induction fuel with
  | zero =>
    intro queue attempts k seen mutants ms a hle h
    cases queue with
    | nil =>
      simp only [innerLoopGo, RunOutcome.ok.injEq] at h
      omega
    | cons mt rest =>
      by_cases hlt : attempts < total
      · simp only [innerLoopGo, if_pos hlt] at h
        cases h
      · simp only [innerLoopGo, if_neg hlt, RunOutcome.ok.injEq] at h
        omega
  | succ f ih =>
    intro queue attempts k seen mutants ms a hle h
    cases queue with
    | nil =>
      simp only [innerLoopGo, RunOutcome.ok.injEq] at h
      omega
    | cons mt rest =>
      by_cases hlt : attempts < total
      · simp only [innerLoopGo, if_pos hlt] at h
        rcases hg : groups mt with _ | ps
        · simp only [hg] at h
          cases h
        · simp only [hg] at h
          cases ps with
          | nil => exact ih rest attempts k seen mutants ms a hle h
          | cons p ps' =>
            rcases hm : (mt.mutate_randomly
                ((p :: ps').getD (stream k % (p :: ps').length) ⟨none, none⟩)
                source stream (k+1)) with _ | ck
            · simp only [hm] at h
              cases h
            · simp only [hm] at h
              rcases ck with ⟨cand, k'⟩
              by_cases hseen : cand ∈ seen
              · rw [if_pos hseen] at h
                exact ih _ _ _ _ _ _ _ (by omega) h
              · rw [if_neg hseen] at h
                rcases hv : isValid cand with e | b
                · rw [hv] at h
                  cases h
                · rw [hv] at h
                  cases b
                  · exact ih _ _ _ _ _ _ _ (by omega) h
                  · exact ih _ _ _ _ _ _ _ (by omega) h
      · simp only [innerLoopGo, if_neg hlt, RunOutcome.ok.injEq] at h
        omega

/-- C8: the generate/validate loop runs only while the queue is non-empty and
`attempts < num_mutants * 50`, so a run that finishes normally has performed
at most `num_mutants * 50` attempts; exhausting the budget is not an error —
concretely, quota 3 with an always-invalid validity service stops after
exactly 150 attempts and returns an empty mutant list through the normal
(`ok`) path. -/
theorem c8_attempt_budget :
    (∀ (source : List Char) (num_mutants : Int) (stream : Nat → Nat)
       (isValid : List Char → Except String Bool) (groups : MutationType → Option (List SolAST))
       (queue : List MutationType) (ms : List (Int × List Char)) (a : Int),
       0 ≤ num_mutants →
       inner_loop source num_mutants stream isValid groups queue = .ok ms a →
       a ≤ num_mutants * ATTEMPTS)
    ∧ get_mutations [MutationType.BinaryOpMutation] treeBin [MutationType.BinaryOpMutation]
        none none 3 (fun _ => 0) srcBin (fun _ => .ok false) = .ok [] 150 := by
  constructor
  · intro source num stream isValid groups queue ms a h0 h
    have htot : (0 : Int) ≤ num * ATTEMPTS := mul_nonneg h0 (by norm_num [ATTEMPTS])
    simp only [inner_loop] at h
    rcases hgo : innerLoopGo stream isValid groups source (num * ATTEMPTS)
        (queue.length + (num * ATTEMPTS).toNat) queue 0 0 [source] [] with _ | e | ⟨ms', a'⟩ | _
    · rw [hgo] at h
      simp at h
    · rw [hgo] at h
      simp at h
    · have hcond : ¬ (a' ≥ num * ATTEMPTS ∧ num < 0) := by omega
      rw [hgo] at h
      simp only [hcond, if_false, RunOutcome.ok.injEq] at h
      rcases h with ⟨-, ha⟩
      subst ha
      exact innerLoopGo_attempts_le stream isValid groups source (num * ATTEMPTS)
        _ _ _ _ _ _ _ _ htot hgo
    · rw [hgo] at h
      simp at h
  · decide

/-- C9: inside the generate/validate loop, a validity-service error is
propagated as the run result (`err`), with no mutant recorded for that
attempt, while an invalid (`ok false`) or already-seen candidate requeues the
popped kind at the back of the queue and the run continues with the attempt
counter bumped and the candidate added to the seen set.  A seen candidate is
requeued without consulting the validity service at all (the `&&`
short-circuit), so the two conditions are listed together exactly as in the
claim. -/
theorem c9_validity_error_propagation
    (stream : Nat → Nat) (isValid : List Char → Except String Bool)
    (groups : MutationType → Option (List SolAST)) (source : List Char) (total : Int)
    (fuel : Nat) (mt : MutationType) (rest : List MutationType) (attempts : Int)
    (k : Nat) (seen : List (List Char)) (mutants : List (Int × List Char))
    (p : SolAST) (ps' : List SolAST) (cand : List Char) (k' : Nat)
    (hlt : attempts < total)
    (hg : groups mt = some (p :: ps'))
    (hm : mt.mutate_randomly ((p :: ps').getD (stream k % (p :: ps').length) ⟨none, none⟩)
            source stream (k+1) = some (cand, k')) :
    (∀ e, cand ∉ seen → isValid cand = .error e →
       innerLoopGo stream isValid groups source total (fuel+1) (mt :: rest) attempts k seen mutants
         = .err e)
    ∧ ((cand ∈ seen ∨ isValid cand = .ok false) →
       innerLoopGo stream isValid groups source total (fuel+1) (mt :: rest) attempts k seen mutants
         = innerLoopGo stream isValid groups source total fuel (rest ++ [mt]) (attempts + 1) k'
             (insertSeen cand seen) mutants) := by
  constructor
  · intro e hseen hv
    simp only [innerLoopGo, if_pos hlt, hg, hm, if_neg hseen, hv]
  · rintro (hseen | hv)
    · simp only [innerLoopGo, if_pos hlt, hg, hm, if_pos hseen]
    · by_cases hseen : cand ∈ seen
      · simp only [innerLoopGo, if_pos hlt, hg, hm, if_pos hseen]
      · simp only [innerLoopGo, if_pos hlt, hg, hm, if_neg hseen, hv]

/-- Witness for `c9_validity_error_propagation` at a concrete state: an
erroring service aborts with its message; an always-false service requeues
the kind with the attempt counted and the candidate remembered. -/
theorem c9_validity_error_propagation_witness :
    innerLoopGo (fun _ => 0) (fun _ => .error "service failure")
      (groupMap [(MutationType.BinaryOpMutation, nodeBin)]) srcBin 100 3
      [MutationType.BinaryOpMutation] 0 0 [srcBin] []
      = .err "service failure"
    ∧ innerLoopGo (fun _ => 0) (fun _ => .ok false)
      (groupMap [(MutationType.BinaryOpMutation, nodeBin)]) srcBin 100 3
      [MutationType.BinaryOpMutation] 0 0 [srcBin] []
      = innerLoopGo (fun _ => 0) (fun _ => .ok false)
          (groupMap [(MutationType.BinaryOpMutation, nodeBin)]) srcBin 100 2
          [MutationType.BinaryOpMutation] 1 2 (insertSeen "x=a + b;\n".data [srcBin]) [] :=
  ⟨(c9_validity_error_propagation (fun _ => 0) (fun _ => .error "service failure")
      (groupMap [(MutationType.BinaryOpMutation, nodeBin)]) srcBin 100 2
      MutationType.BinaryOpMutation [] 0 0 [srcBin] [] nodeBin [] "x=a + b;\n".data 2
      (by decide) rfl (by decide)).1 "service failure" (by decide) rfl,
   (c9_validity_error_propagation (fun _ => 0) (fun _ => .ok false)
      (groupMap [(MutationType.BinaryOpMutation, nodeBin)]) srcBin 100 2
      MutationType.BinaryOpMutation [] 0 0 [srcBin] [] nodeBin [] "x=a + b;\n".data 2
      (by decide) rfl (by decide)).2 (Or.inr rfl)⟩

theorem buildQueueAux_eq (kinds : List MutationType) :
    ∀ (fuel : Nat) (r : Int),
      buildQueueAux kinds fuel r = ((List.replicate fuel kinds).flatten).take r.toNat := by
  intro fuel
  induction fuel with
  | zero =>
    intro r
    simp [buildQueueAux]
  | succ f ih =>
    intro r
    by_cases hr : 0 < r
    · simp only [buildQueueAux, if_pos hr]
      rw [List.replicate_succ, List.flatten_cons, List.take_append_eq_append_take, ih]
      have hmin : (min r (kinds.length : Int)).toNat = min r.toNat kinds.length := by omega
      have htk : kinds.take (min r (kinds.length : Int)).toNat = kinds.take r.toNat := by
        rw [hmin]
        rcases Nat.le_total r.toNat kinds.length with hc | hc
        · rw [Nat.min_eq_left hc]
        · rw [Nat.min_eq_right hc, List.take_length, List.take_of_length_le hc]
      rw [htk]
      have hsub : (r - (kinds.length : Int)).toNat = r.toNat - kinds.length := by omega
      rw [hsub]
    · simp only [buildQueueAux, if_neg hr]
      have h0 : r.toNat = 0 := by omega
      simp [h0]

theorem flatten_replicate_length (kinds : List MutationType) :
    ∀ n : Nat, ((List.replicate n kinds).flatten).length = n * kinds.length := by
  intro n
  induction n with
  | zero => simp
  | succ m ih => simp [List.replicate_succ, ih, Nat.succ_mul, Nat.add_comm]

/-- C5 (amended): the SCHEDULE step spreads the quota across the discovered
kinds by full passes over the kind list *in the grouping HashMap's key
iteration order* (not discovery order), with a final pass truncated to the
remainder, so the queue is the first `quota` entries of the kind list
repeated, and it contains exactly `quota` entries. -/
theorem c5_schedule_round_robin (keys : List MutationType) (q : Int)
    (hk : keys ≠ []) (hq : 0 ≤ q) :
    buildQueue keys q = ((List.replicate q.toNat keys).flatten).take q.toNat
    ∧ (buildQueue keys q).length = q.toNat := by
  have h1 : buildQueue keys q = ((List.replicate q.toNat keys).flatten).take q.toNat :=
    buildQueueAux_eq keys q.toNat q
  refine ⟨h1, ?_⟩
  rw [h1, List.length_take, flatten_replicate_length]
  have hpos : 0 < keys.length := List.length_pos.mpr hk
  have hle : q.toNat ≤ q.toNat * keys.length := Nat.le_mul_of_pos_right _ hpos
  omega

/-- Witness for `c5_schedule_round_robin`: quota 5 over two kinds gives the
five-entry round-robin queue. -/
theorem c5_schedule_round_robin_witness :
    buildQueue [MutationType.BinaryOpMutation, MutationType.DeleteExpressionMutation] 5
      = ((List.replicate (5 : Int).toNat
            [MutationType.BinaryOpMutation, MutationType.DeleteExpressionMutation]).flatten).take
          (5 : Int).toNat
    ∧ (buildQueue [MutationType.BinaryOpMutation, MutationType.DeleteExpressionMutation] 5).length
        = (5 : Int).toNat :=
  c5_schedule_round_robin [MutationType.BinaryOpMutation, MutationType.DeleteExpressionMutation] 5
    (by decide) (by decide)

theorem listSwap_length {α : Type} (l : List α) (i j : Nat) :
    (listSwap l i j).length = l.length := by
  unfold listSwap
  rcases h1 : l[i]? with _ | a
  · rfl
  · rcases h2 : l[j]? with _ | b
    · rfl
    · simp

theorem shuffleAux_length {α : Type} (stream : Nat → Nat) :
    ∀ (i : Nat) (l : List α) (k : Nat), (shuffleAux stream l i k).1.length = l.length := by
  intro i
  induction i with
  | zero => intro l k; rfl
  | succ n ih =>
    intro l k
    rw [shuffleAux, ih, listSwap_length]

theorem shuffleAux_counter {α : Type} (stream : Nat → Nat) :
    ∀ (i : Nat) (l : List α) (k : Nat), (shuffleAux stream l i k).2 = k + i := by
  intro i
  induction i with
  | zero => intro l k; rfl
  | succ n ih =>
    intro l k
    rw [shuffleAux, ih]
    omega

theorem swapLines_two_eval (stream : Nat → Nat) (k : Nat) :
    MutationType.SwapLinesMutation.mutate_randomly nodeBlk2 srcBlk2 stream k
      = some (srcBlk2Swapped, k+1) := by
  have hpt : MutationType.SwapLinesMutation.is_mutation_point nodeBlk2 = true := by decide
  have hsh : shuffleList nodeBlk2.statements stream k
      = (listSwap [stA, stB] 1 (stream k % 2), k + 1) := rfl
  have hmod : stream k % 2 = 0 ∨ stream k % 2 = 1 := by omega
  simp only [MutationType.mutate_randomly, hpt, Bool.not_true, Bool.false_eq_true, if_false, hsh]
  rcases hmod with h | h
  · rw [h]
    rfl
  · rw [h]
    rfl

theorem swapLines_three_eval (stream : Nat → Nat) (k : Nat) :
    MutationType.SwapLinesMutation.mutate_randomly nodeBlk3 srcBlk3 stream k
      = some (blk3Text, k+2) := by
  have hpt : MutationType.SwapLinesMutation.is_mutation_point nodeBlk3 = true := by decide
  have hst : nodeBlk3.statements = [st3A, st3B, st3C] := rfl
  have hlen : (shuffleList nodeBlk3.statements stream k).1.length = 3 := by
    rw [hst]
    exact shuffleAux_length stream 2 [st3A, st3B, st3C] k
  have hcnt : (shuffleList nodeBlk3.statements stream k).2 = k + 2 := by
    rw [hst]
    exact shuffleAux_counter stream 2 [st3A, st3B, st3C] k
  have htext : nodeBlk3.get_text srcBlk3 = some blk3Text := by decide
  simp only [MutationType.mutate_randomly, hpt, Bool.not_true, Bool.false_eq_true, if_false,
    hlen, htext, hcnt]
  rfl

/-- C7 (amended): applying SwapLines to the two-statement block
`{ a(); b(); }` yields `{ b(); a(); }` whenever the shuffle is not the
identity permutation (in fact for every random stream: both pairs of
(span, replacement) describe the same swap), and applying it to a
three-statement block yields a candidate byte-identical to the *block's own
original text* (`node.get_text`), not to the whole original source. -/
theorem c7_swaplines_two_swap_three_noop (stream : Nat → Nat) (k : Nat) :
    ((shuffleList nodeBlk2.statements stream k).1 ≠ nodeBlk2.statements →
       MutationType.SwapLinesMutation.mutate_randomly nodeBlk2 srcBlk2 stream k
         = some (srcBlk2Swapped, k+1))
    ∧ MutationType.SwapLinesMutation.mutate_randomly nodeBlk3 srcBlk3 stream k
        = some (blk3Text, k+2)
    ∧ nodeBlk3.get_text srcBlk3 = some blk3Text := by
  refine ⟨fun _ => swapLines_two_eval stream k, swapLines_three_eval stream k, by decide⟩

/-- Witness for `c7_swaplines_two_swap_three_noop`: a stream whose first draw
swaps the two statements (a non-identity shuffle). -/
theorem c7_swaplines_two_swap_three_noop_witness :
    MutationType.SwapLinesMutation.mutate_randomly nodeBlk2 srcBlk2 (fun _ => 0) 0
      = some (srcBlk2Swapped, 1) :=
  (c7_swaplines_two_swap_three_noop (fun _ => 0) 0).1 (by
    intro h
    have h' : ([stB, stA] : List SolAST) = [stA, stB] := h
    have h2 : stB = stA := (List.cons.injEq _ _ _ _).mp h' |>.1
    have h3 : SolAST.element stB = SolAST.element stA := congrArg SolAST.element h2
    simp only [stA, stB] at h3
    rcases h3 with h3
    simp at h3)

theorem applyReps_correct (source : List Char) :
    ∀ (rs : List Replacement) (p : Nat) (pre : List Char) (off : Nat),
      ChainOK source.length p rs →
      p ≤ source.length →
      pre.length + (source.length - p) + (rs.map (fun r => r.new.length)).sum < USIZE →
      (∀ q, p ≤ q → q ≤ source.length → (q + off) % USIZE = pre.length + (q - p)) →
      applyReps rs off (pre ++ source.drop p) = some (pre ++ spliceFrom source p rs) := by
  intro rs
  induction rs with
  | nil =>
    intro p pre off _ _ _ _
    simp [applyReps, spliceFrom]
  | cons r rs ih =>
    intro p pre off hchain hp hsz hinv
    rcases hchain with ⟨hps, hse, hsl, hchain'⟩
    simp only [List.map_cons, List.sum_cons] at hsz
    have haStart : (r.start + off) % USIZE = pre.length + (r.start - p) :=
      hinv r.start hps (le_trans hse hsl)
    have haStop : (r.stop + off) % USIZE = pre.length + (r.stop - p) :=
      hinv r.stop (le_trans hps hse) hsl
    have hlen : (pre ++ source.drop p).length = pre.length + (source.length - p) := by
      simp
    have hA : (r.start + off) % USIZE ≤ (pre ++ source.drop p).length := by
      rw [haStart, hlen]; omega
    have hB : (r.stop + off) % USIZE ≤ (pre ++ source.drop p).length := by
      rw [haStop, hlen]; omega
    have htake : (pre ++ source.drop p).take ((r.start + off) % USIZE)
        = pre ++ (source.drop p).take (r.start - p) := by
      rw [haStart, List.take_append_eq_append_take]
      congr 1
      · exact List.take_of_length_le (by omega)
      · congr 1
        omega
    have hdrop : (pre ++ source.drop p).drop ((r.stop + off) % USIZE) = source.drop r.stop := by
      rw [haStop, List.drop_append_eq_append_drop]
      have h1 : pre.drop (pre.length + (r.stop - p)) = [] := List.drop_eq_nil_of_le (by omega)
      rw [h1]
      simp only [List.nil_append]
      have h2 : pre.length + (r.stop - p) - pre.length = r.stop - p := by omega
      rw [h2, List.drop_drop]
      congr 1
      omega
    have hplen : (pre ++ (source.drop p).take (r.start - p) ++ r.new).length
        = pre.length + (r.start - p) + r.new.length := by
      simp only [List.length_append, List.length_take, List.length_drop]
      omega
    simp only [applyReps, spliceFrom]
    rw [if_pos ⟨hA, hB⟩, htake, hdrop]
    have hres := ih r.stop (pre ++ (source.drop p).take (r.start - p) ++ r.new)
        ((off + (r.new.length + (USIZE - (r.stop - r.start) % USIZE)) % USIZE) % USIZE)
        hchain' hsl
        (by rw [hplen]; omega)
        (by
          intro q hq hqL
          rw [hplen]
          have hbase : (q + off) % USIZE = pre.length + (q - p) := hinv q (by omega) hqL
          have hUT : pre.length + (q - p) < USIZE := by omega
          have hT : pre.length + (r.start - p) + r.new.length + (q - r.stop) < USIZE := by omega
          have hmod1 : (r.stop - r.start) % USIZE = r.stop - r.start :=
            Nat.mod_eq_of_lt (by omega)
          rw [hmod1]
          have e1 : q + (off + (r.new.length + (USIZE - (r.stop - r.start))) % USIZE) % USIZE
              ≡ q + off + (r.new.length + (USIZE - (r.stop - r.start))) [MOD USIZE] := by
            calc q + (off + (r.new.length + (USIZE - (r.stop - r.start))) % USIZE) % USIZE
                ≡ q + (off + (r.new.length + (USIZE - (r.stop - r.start))) % USIZE) [MOD USIZE] :=
                  Nat.ModEq.add_left q (Nat.mod_modEq _ _)
              _ ≡ q + (off + (r.new.length + (USIZE - (r.stop - r.start)))) [MOD USIZE] :=
                  Nat.ModEq.add_left q (Nat.ModEq.add_left off (Nat.mod_modEq _ _))
              _ = q + off + (r.new.length + (USIZE - (r.stop - r.start))) := by omega
          have e2 : q + off ≡ pre.length + (q - p) [MOD USIZE] := by
            unfold Nat.ModEq
            rw [hbase, Nat.mod_eq_of_lt hUT]
          have e3 : q + off + (r.new.length + (USIZE - (r.stop - r.start)))
              ≡ pre.length + (q - p) + (r.new.length + (USIZE - (r.stop - r.start))) [MOD USIZE] :=
            Nat.ModEq.add_right _ e2
          have e4 : pre.length + (q - p) + (r.new.length + (USIZE - (r.stop - r.start)))
              = pre.length + (r.start - p) + r.new.length + (q - r.stop) + USIZE := by
            omega
          have e5 : pre.length + (r.start - p) + r.new.length + (q - r.stop) + USIZE
              ≡ pre.length + (r.start - p) + r.new.length + (q - r.stop) [MOD USIZE] := by
            unfold Nat.ModEq
            rw [Nat.add_mod_right]
          have efin := ((e1.trans e3).trans (by rw [e4])).trans e5
          unfold Nat.ModEq at efin
          rw [Nat.mod_eq_of_lt hT] at efin
          exact efin)
    simpa only [List.append_assoc] using hres

theorem chainOK_of_sorted (L : Nat) :
    ∀ (l : List Replacement) (p : Nat),
      l.Sorted (fun a b => a.start ≤ b.start) →
      l.Pairwise (fun a b => a.stop ≤ b.start ∨ b.stop ≤ a.start) →
      l.Pairwise (fun a b => a.start ≠ b.start) →
      (∀ r ∈ l, r.start ≤ r.stop ∧ r.stop ≤ L) →
      (∀ r ∈ l, p ≤ r.start) →
      ChainOK L p l := by
  intro l
  induction l with
  | nil =>
    intro p _ _ _ _ _
    trivial
  | cons r t ih =>
    intro p hsort hdisj hne hb hp
    rcases List.sorted_cons.mp hsort with ⟨hr, hsort'⟩
    rcases List.pairwise_cons.mp hdisj with ⟨hd, hdisj'⟩
    rcases List.pairwise_cons.mp hne with ⟨hn, hne'⟩
    refine ⟨hp r (List.mem_cons_self r t), (hb r (List.mem_cons_self r t)).1,
      (hb r (List.mem_cons_self r t)).2, ?_⟩
    apply ih r.stop hsort' hdisj' hne' (fun x hx => hb x (List.mem_cons_of_mem _ hx))
    intro x hx
    have h1 := hr x hx
    have h3 := hn x hx
    have h4 := (hb x (List.mem_cons_of_mem _ hx)).1
    rcases hd x hx with h2 | h2
    · exact h2
    · omega

/-- C3: multi-replace sorts the (node, replacement) pairs by start offset
ascending and applies them sequentially with a running offset delta (each
replacement lands at its original position plus the cumulative length delta
of the earlier replacements; after each, the delta changes by replacement
length minus span length, with usize wrap-around standing in for negative
deltas).  Whenever the extracted spans are valid, pairwise non-overlapping
with distinct starts, and the text sizes stay below the usize modulus, the
result is exactly the position-correct segment decomposition `spliceFrom` of
the source along the sorted replacements — for arbitrary replacement-length
deltas and any number of edits. -/
theorem c3_replace_multiple_position_correct (n : SolAST) (source : List Char)
    (reps : List (SolAST × List Char)) (rs : List Replacement)
    (hx : reps.mapM (fun p => (p.1.get_bounds).map (fun b => Replacement.mk b.1 b.2 p.2)) = some rs)
    (hv : ∀ r ∈ rs, r.start ≤ r.stop ∧ r.stop ≤ source.length)
    (hnol : rs.Pairwise (fun a b => a.stop ≤ b.start ∨ b.stop ≤ a.start))
    (hne : rs.Pairwise (fun a b => a.start ≠ b.start))
    (hsz : source.length + (rs.map (fun r => r.new.length)).sum < USIZE) :
    n.replace_multiple source reps
      = some (spliceFrom source 0 (List.insertionSort (fun a b => a.start ≤ b.start) rs)) := by
  unfold SolAST.replace_multiple
  simp only [hx]
  haveI htot : IsTotal Replacement (fun a b => a.start ≤ b.start) :=
    ⟨fun a b => Nat.le_total a.start b.start⟩
  haveI htrans : IsTrans Replacement (fun a b => a.start ≤ b.start) :=
    ⟨fun _ _ _ hab hbc => Nat.le_trans hab hbc⟩
  have hperm : (List.insertionSort (fun a b => a.start ≤ b.start) rs).Perm rs :=
    List.perm_insertionSort _ rs
  have hsorted : (List.insertionSort (fun a b => a.start ≤ b.start) rs).Sorted
      (fun a b => a.start ≤ b.start) := List.sorted_insertionSort _ rs
  have hv' : ∀ r ∈ List.insertionSort (fun a b => a.start ≤ b.start) rs,
      r.start ≤ r.stop ∧ r.stop ≤ source.length :=
    fun r hr => hv r (hperm.mem_iff.mp hr)
  have hnol' : (List.insertionSort (fun a b => a.start ≤ b.start) rs).Pairwise
      (fun a b => a.stop ≤ b.start ∨ b.stop ≤ a.start) :=
    (hperm.pairwise_iff (fun h => Or.symm h)).mpr hnol
  have hne' : (List.insertionSort (fun a b => a.start ≤ b.start) rs).Pairwise
      (fun a b => a.start ≠ b.start) :=
    (hperm.pairwise_iff (fun h => Ne.symm h)).mpr hne
  have hsum : ((List.insertionSort (fun a b => a.start ≤ b.start) rs).map
      (fun r => r.new.length)).sum = (rs.map (fun r => r.new.length)).sum :=
    (hperm.map _).sum_eq
  have hchain : ChainOK source.length 0 (List.insertionSort (fun a b => a.start ≤ b.start) rs) :=
    chainOK_of_sorted source.length _ 0 hsorted hnol' hne' hv' (fun _ _ => Nat.zero_le _)
  have happ := applyReps_correct source (List.insertionSort (fun a b => a.start ≤ b.start) rs)
      0 [] 0 hchain (Nat.zero_le _)
      (by simp only [List.length_nil, Nat.zero_add, Nat.sub_zero, hsum]; exact hsz)
      (by
        intro q _ hqL
        have : q < USIZE := by omega
        simp [Nat.mod_eq_of_lt this])
  simpa using happ

/-- Witness for `c3_replace_multiple_position_correct`: two out-of-order
spans with different length deltas (grow by 2, shrink by 2) on `"abcdef"`. -/
theorem c3_replace_multiple_position_correct_witness :
    SolAST.replace_multiple ⟨none, none⟩ srcSix
        [(nodeSpan46, "".data), (nodeSpan12, "XYZ".data)]
      = some (spliceFrom srcSix 0 (List.insertionSort (fun a b => a.start ≤ b.start)
          [⟨4, 6, "".data⟩, ⟨1, 2, "XYZ".data⟩])) :=
  c3_replace_multiple_position_correct ⟨none, none⟩ srcSix
    [(nodeSpan46, "".data), (nodeSpan12, "XYZ".data)]
    [⟨4, 6, "".data⟩, ⟨1, 2, "XYZ".data⟩]
    rfl (by decide) (by decide) (by decide) (by decide)

/-- Witness for `c8_attempt_budget`: the concrete always-invalid quota-3 run
finishes with 150 attempts, within the budget 3 * 50. -/
theorem c8_attempt_budget_witness : (150 : Int) ≤ 3 * ATTEMPTS :=
  c8_attempt_budget.1 srcBin 3 (fun _ => 0) (fun _ => .ok false)
    (groupMap [(MutationType.BinaryOpMutation, nodeBin)])
    (buildQueue [MutationType.BinaryOpMutation] 3) [] 150 (by decide) (by decide)
